import Mathlib

set_option maxHeartbeats 1000000
set_option linter.unnecessarySimpa false

/-!
Shallow embedding of the multi-agent orchestration core of the repository:
the agent registry and its operations (`registerAgent`, `assignTask`,
`completeTask`, `updateAgentStatus`, `balanceLoad`) from
`src/multi-agent-orchestration.ts`, the specialization classifier from
`src/agent-specialization.ts`, and the `isLoadBalancingNeeded` predicate
from `src/load-balancer.ts`.

Modelling conventions:
* Agents live in a `List Agent` in registration order (the in-memory
  `this.agents` array).  The JavaScript code mutates agent objects through
  shared references; we model this by updating the list at the agent's
  index, and the JS arrays of references (`sortedAgents`,
  `overloadedAgents`, `underloadedAgents`, the filtered candidate arrays)
  become lists of indices into the registry list.
* JS numbers holding loads/capacities are integers throughout the source;
  they are modelled as `Int`.  Load percentages (`currentLoad / capacity`)
  are compared as exact rationals (`ℚ`); the source computes them as IEEE
  doubles for comparison only and never stores them.
* `Array.prototype.sort` (stable since ES2019) with comparator
  `(a, b) => key a - key b` is modelled by Mathlib's stable
  `List.insertionSort` with the relation `key a ≤ key b`: for a total,
  transitive relation the stable ascending sort is unique, so any stable
  sort models the V8 sort.
* `[].reduce(f)` with no initial value throws a `TypeError` in JS; this is
  modelled by an explicit error outcome.
* Storage persistence (`saveAgents` / `loadAgents`) is fire-and-forget in
  the source (failures are only logged) and has no effect on the in-memory
  registry, so it is not modelled.
-/

inductive AgentStatusType where
  | STARTING
  | RUNNING
  | COMPLETED
  | FAILED
  | DISCONNECTED
  deriving DecidableEq, Repr, Inhabited

inductive AgentSpecialization where
  | frontend
  | backend
  | database
  | devops
  | general
  deriving DecidableEq, Repr, Inhabited

/-- Agent record: the fields constructed by `registerAgent` in
`src/multi-agent-orchestration.ts` (id, name, status, specialization,
capacity, currentLoad). -/
structure Agent where
  id : String
  name : String
  status : AgentStatusType
  specialization : AgentSpecialization
  capacity : Int
  currentLoad : Int
  deriving DecidableEq, Repr, Inhabited

/-- WorkItem as in `src/types.ts`; the orchestration core only reads
`description` (and `id`). -/
structure WorkItem where
  id : String
  title : String
  description : String
  deriving DecidableEq, Repr, Inhabited

/-- Registry lookup by index (JS object reference `this.agents[i]`). -/
def ld (s : List Agent) (i : Nat) : Agent := s.getD i default

/-- In-place mutation `agent.currentLoad += d` of the agent at index `i`. -/
def updLoad (s : List Agent) (i : Nat) (d : Int) : List Agent :=
  s.set i { ld s i with currentLoad := (ld s i).currentLoad + d }

/-- Total load over the registry. -/
def sumLoad (s : List Agent) : Int := (s.map Agent.currentLoad).sum

/-- Load percentage `currentLoad / capacity`, as an exact rational
(`Rat.divInt` so that terms evaluate by kernel reduction; it agrees with
rational division by `Rat.divInt_eq_div`). -/
def ratio (a : Agent) : ℚ := Rat.divInt a.currentLoad a.capacity

/-- Load percentage of the agent at index `i`. -/
def ratioLd (s : List Agent) (i : Nat) : ℚ := ratio (ld s i)

/-! ## The load balancer pass (`MultiAgentOrchestrationImpl.balanceLoad`) -/

/-- Comparator of the initial sort in `balanceLoad`
(`(a, b) => aLoadPercentage - bLoadPercentage`), as the total preorder
`ratio a ≤ ratio b` on registry indices. -/
def balLe (s : List Agent) (i j : Nat) : Prop := ratioLd s i ≤ ratioLd s j

instance (s : List Agent) : DecidableRel (balLe s) :=
  fun i j => inferInstanceAs (Decidable (ratioLd s i ≤ ratioLd s j))

instance (s : List Agent) : IsTotal Nat (balLe s) := ⟨fun _ _ => le_total _ _⟩

instance (s : List Agent) : IsTrans Nat (balLe s) := ⟨fun _ _ _ => le_trans⟩

/-- The reduce `underloadedAgents.reduce((prev, curr) => prev <= curr ? prev
: curr)` over current load percentages; `none` when the list is empty (in JS
`[].reduce` with no initial value throws a `TypeError`). -/
def mostUnder (s : List Agent) : List Nat → Option Nat
  | [] => none
  | t :: ts =>
    some (ts.foldl
      (fun prev curr => if ratioLd s prev ≤ ratioLd s curr then prev else curr) t)

/-- The inner `for (let i = 0; i < excessLoad; i++)` loop of `balanceLoad`
for one overloaded agent `o`: repeatedly move one unit of load from `o` to
the most underloaded agent, dropping a receiver that reaches its capacity
from the eligible list and breaking out of this (inner) loop when the
eligible list becomes empty.  Returns the new registry, the remaining
eligible list, and whether a `TypeError` was raised (reduce over an empty
list). -/
def innerLoop (o : Nat) : Nat → List Agent → List Nat → List Agent × List Nat × Bool
  | 0, s, ul => (s, ul, false)
  | k + 1, s, ul =>
    match mostUnder s ul with
    | none => (s, ul, true)
    | some t =>
      let s1 := updLoad (updLoad s o (-1)) t 1
      if (ld s1 t).capacity ≤ (ld s1 t).currentLoad then
        let ul1 := ul.erase t
        if ul1.isEmpty then (s1, ul1, false)
        else innerLoop o k s1 ul1
      else innerLoop o k s1 ul

/-- The outer `for (const overloadedAgent of overloadedAgents)` loop of
`balanceLoad`; a raised `TypeError` aborts the whole pass. -/
def outerLoop : List Nat → List Agent → List Nat → List Agent × Bool
  | [], s, _ => (s, false)
  | o :: os, s, ul =>
    let excess := ((ld s o).currentLoad - (ld s o).capacity).toNat
    let r := innerLoop o excess s ul
    if r.2.2 then (r.1, true) else outerLoop os r.1 r.2.1

/-- Observable outcome of a `balanceLoad` call: a normal return, the
`console.warn('Cannot balance load: ...')` early return, or an uncaught
`TypeError` escaping the pass. -/
inductive BalanceOutcome where
  | ok
  | cannotBalance
  | errored
  deriving DecidableEq, Repr

/-- `MultiAgentOrchestrationImpl.balanceLoad`, returning the in-memory
registry it leaves behind together with the observable outcome. -/
def balanceLoad (s : List Agent) : List Agent × BalanceOutcome :=
  let sortedIdx := List.insertionSort (balLe s) (List.range s.length)
  let overloadedIdx := sortedIdx.filter
    (fun i => decide ((ld s i).capacity < (ld s i).currentLoad))
  if overloadedIdx.isEmpty then (s, .ok)
  else
    let underloadedIdx := sortedIdx.filter
      (fun i => decide ((ld s i).currentLoad < (ld s i).capacity))
    if underloadedIdx.isEmpty then (s, .cannotBalance)
    else
      let r := outerLoop overloadedIdx s underloadedIdx
      (r.1, if r.2 then .errored else .ok)

/-! ## Assignment (`assignTask` / `findBestAgentForTask`) and the other
registry operations -/

/-- Error taxonomy of the registry operations (thrown `Error`s in the
source). -/
inductive AssignError where
  | notFound (agentId : String)
  | capacityExceeded (agentId : String)
  | taskNotFound (taskId : String)
  | noAvailableAgent (specialization : AgentSpecialization)
  deriving DecidableEq, Repr

/-- Filter of the first candidate set in `findBestAgentForTask`:
specialization equal to the task's tag or `general`, spare capacity, and
status `RUNNING`. -/
def eligible (s : List Agent) (spec : AgentSpecialization) (i : Nat) : Prop :=
  ((ld s i).specialization = spec ∨ (ld s i).specialization = .general) ∧
    (ld s i).currentLoad < (ld s i).capacity ∧ (ld s i).status = .RUNNING

instance (s : List Agent) (spec : AgentSpecialization) (i : Nat) :
    Decidable (eligible s spec i) :=
  inferInstanceAs (Decidable (_ ∧ _ ∧ _))

/-- Filter of the fallback candidate set: any `RUNNING` agent with spare
capacity. -/
def anyEligible (s : List Agent) (i : Nat) : Prop :=
  (ld s i).currentLoad < (ld s i).capacity ∧ (ld s i).status = .RUNNING

instance (s : List Agent) (i : Nat) : Decidable (anyEligible s i) :=
  inferInstanceAs (Decidable (_ ∧ _))

/-- Comparator of the first candidate sort in `findBestAgentForTask`
(exact specialization match first, then ascending load percentage), as a
total preorder: `i ≼ j` iff the comparator returns a non-positive value. -/
def bestLe (s : List Agent) (spec : AgentSpecialization) (i j : Nat) : Prop :=
  ((ld s i).specialization = spec ∧ (ld s j).specialization ≠ spec) ∨
    (((ld s i).specialization = spec ↔ (ld s j).specialization = spec) ∧
      ratioLd s i ≤ ratioLd s j)

instance (s : List Agent) (spec : AgentSpecialization) :
    DecidableRel (bestLe s spec) :=
  fun _ _ => inferInstanceAs (Decidable (_ ∨ _))

instance (s : List Agent) (spec : AgentSpecialization) :
    IsTotal Nat (bestLe s spec) := by
  constructor
  intro i j
  by_cases hi : (ld s i).specialization = spec <;>
    by_cases hj : (ld s j).specialization = spec <;>
      rcases le_total (ratioLd s i) (ratioLd s j) with h | h <;>
        simp [bestLe, hi, hj, h]

instance (s : List Agent) (spec : AgentSpecialization) :
    IsTrans Nat (bestLe s spec) := by
  constructor
  intro a b c hab hbc
  by_cases ha : (ld s a).specialization = spec <;>
    by_cases hb : (ld s b).specialization = spec <;>
      by_cases hc : (ld s c).specialization = spec <;>
        simp [bestLe, ha, hb, hc] at * <;>
          exact le_trans hab hbc

/-- `MultiAgentOrchestrationImpl.findBestAgentForTask`, returning the index
of the chosen agent (the thrown "No available agents" error becomes
`none`). -/
def findBestAgentForTask (s : List Agent) (spec : AgentSpecialization) : Option Nat :=
  let availableIdx := (List.range s.length).filter (fun i => decide (eligible s spec i))
  if availableIdx.isEmpty then
    let anyAvailableIdx := (List.range s.length).filter (fun i => decide (anyEligible s i))
    if anyAvailableIdx.isEmpty then none
    else (List.insertionSort (balLe s) anyAvailableIdx).head?
  else (List.insertionSort (bestLe s spec) availableIdx).head?

/-- `MultiAgentOrchestrationImpl.assignTask`.  `task?` is the result of
`storage.load('task_' + taskId)` and `taskSpec` the tag computed by
`determineTaskSpecialization` for that task (the heuristic filename
extraction regex is not modelled; every theorem below quantifies over the
derived tag).  Returns the in-memory registry left behind together with the
returned agent or the thrown error. -/
def assignTask (s : List Agent) (agentId? : Option String) (taskId : String)
    (task? : Option WorkItem) (taskSpec : AgentSpecialization) :
    List Agent × Except AssignError Agent :=
  match agentId? with
  | some agentId =>
    match s.findIdx? (fun a => a.id == agentId) with
    | none => (s, .error (.notFound agentId))
    | some i =>
      if (ld s i).capacity ≤ (ld s i).currentLoad then
        (s, .error (.capacityExceeded agentId))
      else (updLoad s i 1, .ok (ld (updLoad s i 1) i))
  | none =>
    match task? with
    | none => (s, .error (.taskNotFound taskId))
    | some _task =>
      match findBestAgentForTask s taskSpec with
      | none => (s, .error (.noAvailableAgent taskSpec))
      | some i => (updLoad s i 1, .ok (ld (updLoad s i 1) i))

/-- `MultiAgentOrchestrationImpl.registerAgent` (the generated id is a
parameter; the source builds it from `Date.now()` and `Math.random()`). -/
def registerAgent (s : List Agent) (id name : String)
    (specialization : AgentSpecialization) (capacity : Int) : List Agent × Agent :=
  let agent : Agent :=
    { id := id, name := name, status := .STARTING,
      specialization := specialization, capacity := capacity, currentLoad := 0 }
  (s ++ [agent], agent)

/-- `MultiAgentOrchestrationImpl.updateAgentStatus`. -/
def updateAgentStatus (s : List Agent) (agentId : String)
    (status : AgentStatusType) : List Agent × Except AssignError Agent :=
  match s.findIdx? (fun a => a.id == agentId) with
  | none => (s, .error (.notFound agentId))
  | some i =>
    let s1 := s.set i { ld s i with status := status }
    (s1, .ok (ld s1 i))

/-- `MultiAgentOrchestrationImpl.completeTask`: decrement the agent's load,
clamped at 0 (`if (agent.currentLoad > 0)`). -/
def completeTask (s : List Agent) (agentId : String) :
    List Agent × Except AssignError Agent :=
  match s.findIdx? (fun a => a.id == agentId) with
  | none => (s, .error (.notFound agentId))
  | some i =>
    let s1 := if 0 < (ld s i).currentLoad then updLoad s i (-1) else s
    (s1, .ok (ld s1 i))

/-! ## Specialization classifier (`AgentSpecializationManager`) -/

/-- Whether `hay` starts with `needle` (on character lists). -/
def startsWithL : List Char → List Char → Bool
  | [], _ => true
  | _ :: _, [] => false
  | a :: as, b :: bs => a == b && startsWithL as bs

/-- JS `hay.includes(needle)` on character lists. -/
def includesL (needle : List Char) : List Char → Bool
  | [] => needle.isEmpty
  | c :: rest => startsWithL needle (c :: rest) || includesL needle rest

/-- JS `hay.includes(needle)`. -/
def strIncludes (hay needle : String) : Bool := includesL needle.toList hay.toList

/-- JS `hay.endsWith(s)`. -/
def strEndsWith (hay s : String) : Bool :=
  startsWithL s.toList.reverse hay.toList.reverse

/-- JS `s.toLowerCase()` (ASCII, which covers every pattern and input in
scope). -/
def strToLower (s : String) : String := String.mk (s.toList.map Char.toLower)

/-- JS `pattern.startsWith('*.')`. -/
def isExtPattern (p : String) : Bool := startsWithL ['*', '.'] p.toList

/-- The default pattern table built in the `AgentSpecializationManager`
constructor. -/
def defaultPatterns : AgentSpecialization → List String
  | .frontend =>
    ["*.html", "*.css", "*.scss", "*.js", "*.jsx", "*.ts", "*.tsx",
     "react", "vue", "angular", "svelte", "webpack", "babel", "eslint",
     "ui", "ux", "responsive", "mobile", "desktop", "web"]
  | .backend =>
    ["*.js", "*.ts", "*.py", "*.java", "*.go", "*.rb", "*.php", "*.cs",
     "api", "rest", "graphql", "server", "endpoint", "controller",
     "middleware", "authentication", "authorization", "security"]
  | .database =>
    ["*.sql", "*.prisma", "*.schema", "migration",
     "database", "db", "sql", "nosql", "mongodb", "postgres", "mysql",
     "query", "index", "transaction", "orm", "entity", "model"]
  | .devops =>
    ["Dockerfile", "docker-compose.yml", "*.yaml", "*.yml",
     "kubernetes", "k8s", "helm", "terraform", "ansible",
     "ci", "cd", "pipeline", "deploy", "build", "test",
     "monitoring", "logging", "metrics", "alert"]
  | .general => []

/-- `scoreDescription`, restricted to one tag (the scores map is additive
per tag): one point per pattern occurring in the lower-cased description. -/
def scoreDescription (description : String) (tag : AgentSpecialization) : Nat :=
  (defaultPatterns tag).countP
    (fun p => strIncludes (strToLower description) (strToLower p))

/-- Score contributed by one pattern to one (already lower-cased) file
name in `scoreFiles`: 2 for a `*.ext` suffix match, otherwise 1 for a
substring match. -/
def filePatScore (lowerFile : String) (p : String) : Nat :=
  if isExtPattern p then
    if strEndsWith lowerFile (String.mk (p.toList.drop 1)) then 2 else 0
  else
    if strIncludes lowerFile (strToLower p) then 1 else 0

/-- `scoreFiles`, restricted to one tag. -/
def scoreFiles (files : List String) (tag : AgentSpecialization) : Nat :=
  (files.map (fun f => ((defaultPatterns tag).map (filePatScore (strToLower f))).sum)).sum

/-- Total score of one tag for `determineSpecialization`. -/
def specScore (description : String) (files : List String)
    (tag : AgentSpecialization) : Nat :=
  scoreDescription description tag + scoreFiles files tag

/-- Insertion order of the scores map in `determineSpecialization`. -/
def scoreTags : List AgentSpecialization :=
  [.frontend, .backend, .database, .devops, .general]

/-- `AgentSpecializationManager.determineSpecialization` with the default
pattern table: the first tag (in scores-map insertion order) with the
strictly highest score, defaulting to `general` when every score is 0. -/
def determineSpecialization (description : String) (files : List String) :
    AgentSpecialization :=
  (scoreTags.foldl
    (fun acc tag =>
      let sc := specScore description files tag
      if acc.1 < sc then (sc, tag) else acc)
    ((0 : Nat), AgentSpecialization.general)).2

/-! ## `LoadBalancer.isLoadBalancingNeeded` -/

/-- `LoadBalancer.isLoadBalancingNeeded`: true when some agent is over
capacity, otherwise true when the population standard deviation of the
load percentages of `RUNNING` agents exceeds 0.2.  The source compares
`Math.sqrt(variance) > 0.2`; as both sides are non-negative this is
equivalent to `variance > 0.04 = 1/25`, which is how the comparison is
modelled on exact rationals. -/
def isLoadBalancingNeeded (agents : List Agent) : Bool :=
  if agents.any (fun a => decide (a.capacity < a.currentLoad)) then true
  else
    let loadPercentages :=
      (agents.filter (fun a => decide (a.status = .RUNNING))).map ratio
    if loadPercentages.length ≤ 1 then false
    else
      let mean := loadPercentages.sum / (loadPercentages.length : ℚ)
      let variance :=
        (loadPercentages.map (fun v => (v - mean) ^ 2)).sum /
          (loadPercentages.length : ℚ)
      decide ((1 : ℚ) / 25 < variance)

/-- Population variance of a list of rationals, written independently from
the spec's description of `needsBalancing` ("the population standard
deviation of load ratios"); the variance of an empty list comes out as 0
because `x / 0 = 0` in `ℚ`. -/
def popVariance (l : List ℚ) : ℚ :=
  (l.map (fun v => (v - l.sum / l.length) ^ 2)).sum / l.length

/-- Modelled from the spec (section 4.4, needed-check): "true if any agent
is over capacity, or if (restricted to RUNNING agents) the population
standard deviation of load ratios exceeds 0.2", with `stdDev > 0.2`
expressed as `variance > 1/25`. -/
def needsBalancingSpec (agents : List Agent) : Prop :=
  (∃ a ∈ agents, a.capacity < a.currentLoad) ∨
    (1 : ℚ) / 25 <
      popVariance ((agents.filter (fun a => decide (a.status = .RUNNING))).map ratio)

/-! ## Operation sequences over the registry -/

/-- One public registry operation, with the collaborator inputs it consumes
(`task?` is the task-store lookup result, `taskSpec` the classifier's tag
for it, `id` the generated agent id). -/
inductive Op where
  | register (id name : String) (specialization : AgentSpecialization) (capacity : Int)
  | assign (agentId? : Option String) (taskId : String) (task? : Option WorkItem)
      (taskSpec : AgentSpecialization)
  | complete (agentId : String) (taskId : String)
  | balance
  | setStatus (agentId : String) (status : AgentStatusType)

/-- Effect of one operation on the in-memory registry (errors leave the
registry as the operation left it, exactly as thrown JS exceptions do). -/
def step (s : List Agent) : Op → List Agent
  | .register id name spec cap => (registerAgent s id name spec cap).1
  | .assign aid? tid task? tag => (assignTask s aid? tid task? tag).1
  | .complete aid _tid => (completeTask s aid).1
  | .balance => (balanceLoad s).1
  | .setStatus aid st => (updateAgentStatus s aid st).1

/-- Effect of a sequence of operations. -/
def run (s : List Agent) (ops : List Op) : List Agent := ops.foldl step s

/-- All loads non-negative (the data-model invariant of section 3). -/
def loadsNonneg (s : List Agent) : Prop :=
  ∀ j, j < s.length → 0 ≤ (ld s j).currentLoad

/-- All capacities positive (data model: "capacity: positive integer"). -/
def capsPos (s : List Agent) : Prop :=
  ∀ j, j < s.length → 0 < (ld s j).capacity

/-- A registration operation respects the data model (positive capacity). -/
def opCapsPos : Op → Prop
  | .register _ _ _ cap => 0 < cap
  | _ => True

/-! ## Named pieces of `balanceLoad` and concrete snapshots -/

/-- The sorted index list built at the top of `balanceLoad` (same term as
its first `let`). -/
def sortedIdx (s : List Agent) : List Nat :=
  List.insertionSort (balLe s) (List.range s.length)

/-- Indices of the overloaded agents (`currentLoad > capacity`) in sorted
order, as filtered by `balanceLoad`. -/
def overIdx (s : List Agent) : List Nat :=
  (sortedIdx s).filter (fun i => decide ((ld s i).capacity < (ld s i).currentLoad))

/-- Indices of the underloaded agents (`currentLoad < capacity`) in sorted
order, as filtered by `balanceLoad`. -/
def underIdx (s : List Agent) : List Nat :=
  (sortedIdx s).filter (fun i => decide ((ld s i).currentLoad < (ld s i).capacity))

/-- Convenience constructor for concrete test agents (name = id). -/
def mkAgent (id : String) (status : AgentStatusType)
    (specialization : AgentSpecialization) (capacity currentLoad : Int) : Agent :=
  { id := id, name := id, status := status, specialization := specialization,
    capacity := capacity, currentLoad := currentLoad }

/-- Snapshot with two overloaded agents and one underloaded agent with one
slot of spare capacity: the receiver fills up during the first overloaded
agent's redistribution, so the second overloaded agent's turn reduces over
an empty receiver list. -/
def crashSnapshot : List Agent :=
  [mkAgent "o1" .RUNNING .general 1 2,
   mkAgent "o2" .RUNNING .general 1 2,
   mkAgent "u" .RUNNING .general 1 0]

/-- Snapshot with a single agent exactly at capacity (no agent is
underloaded and none is overloaded). -/
def atCapSnapshot : List Agent := [mkAgent "a1" .RUNNING .general 1 1]

/-- Snapshot whose only agent is over capacity (no underloaded agent). -/
def overOnlySnapshot : List Agent := [mkAgent "a1" .RUNNING .general 1 2]

/-- The spec's `needsBalancing` example with load ratios 0.1 and 0.9. -/
def highSpreadSnapshot : List Agent :=
  [mkAgent "a1" .RUNNING .general 10 1, mkAgent "a2" .RUNNING .general 10 9]

/-- The spec's `needsBalancing` example with load ratios 0.5 and 0.6. -/
def lowSpreadSnapshot : List Agent :=
  [mkAgent "a1" .RUNNING .general 10 5, mkAgent "a2" .RUNNING .general 10 6]

/-- The first candidate list of `findBestAgentForTask` (indices in
registry order), as a named copy of its first filter. -/
def availableIdx (s : List Agent) (spec : AgentSpecialization) : List Nat :=
  (List.range s.length).filter (fun i => decide (eligible s spec i))

/-- The fallback candidate list of `findBestAgentForTask`. -/
def anyAvailableIdx (s : List Agent) : List Nat :=
  (List.range s.length).filter (fun i => decide (anyEligible s i))

/-- Snapshot with a low-ratio `general` agent (0.1) and a higher-ratio
`backend` agent (0.5), both RUNNING with spare capacity. -/
def mixedSnapshot : List Agent :=
  [mkAgent "g" .RUNNING .general 10 1,
   mkAgent "b" .RUNNING .backend 10 5]

/-- A concrete task for witnesses. -/
def sampleTask : WorkItem := { id := "t1", title := "t", description := "api" }

/-! ## Basic lemmas about the embedding -/

theorem ratio_eq_div (a : Agent) :
    ratio a = (a.currentLoad : ℚ) / (a.capacity : ℚ) := by
  unfold ratio
  exact Rat.divInt_eq_div _ _

theorem length_updLoad (s : List Agent) (i : Nat) (d : Int) :
    (updLoad s i d).length = s.length := by
  simp [updLoad]

theorem ld_updLoad_ne (s : List Agent) {i j : Nat} (d : Int) (h : j ≠ i) :
    ld (updLoad s i d) j = ld s j := by
  induction s generalizing i j with
  | nil => simp [updLoad, ld]
  | cons a t ih =>
    cases i with
    | zero =>
      cases j with
      | zero => exact absurd rfl h
      | succ j' => simp [updLoad, ld, List.set]
    | succ i' =>
      cases j with
      | zero => simp [updLoad, ld, List.set]
      | succ j' =>
        have := ih (i := i') (j := j') (fun hc => h (by simp [hc]))
        simpa [updLoad, ld, List.set] using this

theorem ld_updLoad_self (s : List Agent) {i : Nat} (d : Int) (h : i < s.length) :
    ld (updLoad s i d) i =
      { ld s i with currentLoad := (ld s i).currentLoad + d } := by
  induction s generalizing i with
  | nil => simp at h
  | cons a t ih =>
    cases i with
    | zero => simp [updLoad, ld, List.set]
    | succ i' =>
      have h' : i' < t.length := by simpa using h
      have := ih (i := i') h'
      simpa [updLoad, ld, List.set] using this

theorem updLoad_oob (s : List Agent) {i : Nat} (d : Int) (h : s.length ≤ i) :
    updLoad s i d = s := by
  induction s generalizing i with
  | nil => simp [updLoad]
  | cons a t ih =>
    cases i with
    | zero => simp at h
    | succ i' =>
      have h' : t.length ≤ i' := by simpa using h
      simp only [updLoad, ld, List.set] at *
      simp [List.getD_cons_succ]
      have := ih (i := i') h'
      simpa [updLoad, ld] using this

theorem ld_updLoad_capacity (s : List Agent) (i j : Nat) (d : Int) :
    (ld (updLoad s i d) j).capacity = (ld s j).capacity := by
  by_cases hij : j = i
  · subst hij
    by_cases h : j < s.length
    · rw [ld_updLoad_self s d h]
    · rw [updLoad_oob s d (by omega)]
  · rw [ld_updLoad_ne s d hij]

theorem ld_updLoad_status (s : List Agent) (i j : Nat) (d : Int) :
    (ld (updLoad s i d) j).status = (ld s j).status := by
  by_cases hij : j = i
  · subst hij
    by_cases h : j < s.length
    · rw [ld_updLoad_self s d h]
    · rw [updLoad_oob s d (by omega)]
  · rw [ld_updLoad_ne s d hij]

theorem ld_updLoad_load_ge (s : List Agent) (i j : Nat) (d : Int) (hd : 0 ≤ d) :
    (ld s j).currentLoad ≤ (ld (updLoad s i d) j).currentLoad := by
  by_cases hij : j = i
  · subst hij
    by_cases h : j < s.length
    · rw [ld_updLoad_self s d h]
      simp
      omega
    · rw [updLoad_oob s d (by omega)]
  · rw [ld_updLoad_ne s d hij]

theorem sumLoad_updLoad (s : List Agent) {i : Nat} (d : Int) (h : i < s.length) :
    sumLoad (updLoad s i d) = sumLoad s + d := by
  induction s generalizing i with
  | nil => simp at h
  | cons a t ih =>
    cases i with
    | zero =>
      simp [updLoad, ld, List.set, sumLoad]
      ring
    | succ i' =>
      have h' : i' < t.length := by simpa using h
      have hrec := ih (i := i') h'
      simp only [updLoad, ld, List.set, sumLoad, List.map, List.sum_cons] at *
      simp [List.getD_cons_succ] at *
      omega

/-! ## Invariants of the balancing loops -/

theorem foldl_min_mem (s : List Agent) (ys : List Nat) :
    ∀ x : Nat,
      ys.foldl (fun prev curr =>
        if ratioLd s prev ≤ ratioLd s curr then prev else curr) x ∈ x :: ys := by
  induction ys with
  | nil => intro x; simp
  | cons y ys ih =>
    intro x
    have h := ih (if ratioLd s x ≤ ratioLd s y then x else y)
    simp only [List.foldl_cons]
    by_cases hc : ratioLd s x ≤ ratioLd s y <;>
      simp [hc] at h ⊢ <;> tauto

theorem mostUnder_mem {s : List Agent} {ul : List Nat} {t : Nat}
    (h : mostUnder s ul = some t) : t ∈ ul := by
  cases ul with
  | nil => simp [mostUnder] at h
  | cons x xs =>
    simp only [mostUnder, Option.some.injEq] at h
    have := foldl_min_mem s xs x
    rw [h] at this
    exact this

theorem innerLoop_spec (o : Nat) :
    ∀ (k : Nat) (s : List Agent) (ul : List Nat),
      o < s.length → (∀ t, t ∈ ul → t < s.length) → o ∉ ul →
      (innerLoop o k s ul).1.length = s.length ∧
      (∀ t, t ∈ (innerLoop o k s ul).2.1 → t ∈ ul) ∧
      sumLoad (innerLoop o k s ul).1 = sumLoad s ∧
      (∀ j, j ≠ o → j ∉ ul → ld (innerLoop o k s ul).1 j = ld s j) ∧
      (∀ j, j ≠ o →
        (ld s j).currentLoad ≤ (ld (innerLoop o k s ul).1 j).currentLoad) ∧
      (ld s o).currentLoad - (k : Int) ≤ (ld (innerLoop o k s ul).1 o).currentLoad ∧
      (∀ j, (ld (innerLoop o k s ul).1 j).capacity = (ld s j).capacity) ∧
      (∀ j, (ld (innerLoop o k s ul).1 j).status = (ld s j).status) := by
  intro k
  induction k with
  | zero =>
    intro s ul ho hul hno
    refine ⟨rfl, fun t ht => ht, rfl, fun j _ _ => rfl, fun j _ => le_refl _,
      by simp [innerLoop], fun j => rfl, fun j => rfl⟩
  | succ k ih =>
    intro s ul ho hul hno
    cases hmu : mostUnder s ul with
    | none =>
      have hres : innerLoop o (k + 1) s ul = (s, ul, true) := by
        simp only [innerLoop, hmu]
      rw [hres]
      refine ⟨rfl, fun t ht => ht, rfl, fun j _ _ => rfl, fun j _ => le_refl _,
        ?_, fun j => rfl, fun j => rfl⟩
      show (ld s o).currentLoad - ((k + 1 : Nat) : Int) ≤ (ld s o).currentLoad
      omega
    | some t =>
      have htul : t ∈ ul := mostUnder_mem hmu
      have htlen : t < s.length := hul t htul
      have hto : t ≠ o := fun h => hno (h ▸ htul)
      have hlen1 : (updLoad (updLoad s o (-1)) t 1).length = s.length := by
        rw [length_updLoad, length_updLoad]
      have hsum1 : sumLoad (updLoad (updLoad s o (-1)) t 1) = sumLoad s := by
        rw [sumLoad_updLoad _ 1 (by rw [length_updLoad]; exact htlen),
          sumLoad_updLoad _ (-1) ho]
        ring
      have hld_other : ∀ j, j ≠ o → j ≠ t →
          ld (updLoad (updLoad s o (-1)) t 1) j = ld s j := by
        intro j h1 h2
        rw [ld_updLoad_ne _ _ h2, ld_updLoad_ne _ _ h1]
      have hld_t : (ld (updLoad (updLoad s o (-1)) t 1) t).currentLoad =
          (ld s t).currentLoad + 1 := by
        rw [ld_updLoad_self _ 1 (by rw [length_updLoad]; exact htlen),
          ld_updLoad_ne _ _ hto]
      have hld_o : (ld (updLoad (updLoad s o (-1)) t 1) o).currentLoad =
          (ld s o).currentLoad + (-1) := by
        rw [ld_updLoad_ne _ _ (Ne.symm hto), ld_updLoad_self _ (-1) ho]
      have hcap1 : ∀ j, (ld (updLoad (updLoad s o (-1)) t 1) j).capacity =
          (ld s j).capacity := by
        intro j
        rw [ld_updLoad_capacity, ld_updLoad_capacity]
      have hst1 : ∀ j, (ld (updLoad (updLoad s o (-1)) t 1) j).status =
          (ld s j).status := by
        intro j
        rw [ld_updLoad_status, ld_updLoad_status]
      have hmono1 : ∀ j, j ≠ o →
          (ld s j).currentLoad ≤ (ld (updLoad (updLoad s o (-1)) t 1) j).currentLoad := by
        intro j hj
        by_cases hjt : j = t
        · subst hjt
          omega
        · rw [hld_other j hj hjt]
      by_cases hcap : (ld (updLoad (updLoad s o (-1)) t 1) t).capacity ≤
          (ld (updLoad (updLoad s o (-1)) t 1) t).currentLoad
      · by_cases hemp : (ul.erase t).isEmpty
        · have hres : innerLoop o (k + 1) s ul =
              (updLoad (updLoad s o (-1)) t 1, ul.erase t, false) := by
            simp only [innerLoop, hmu, if_pos hcap, if_pos hemp]
          rw [hres]
          refine ⟨hlen1, ?_, hsum1, ?_, hmono1, ?_, hcap1, hst1⟩
          · intro x hx
            exact List.mem_of_mem_erase hx
          · intro j h1 h2
            exact hld_other j h1 (fun hc => h2 (hc ▸ htul))
          · rw [hld_o]
            omega
        · have hres : innerLoop o (k + 1) s ul =
              innerLoop o k (updLoad (updLoad s o (-1)) t 1) (ul.erase t) := by
            simp only [innerLoop, hmu, if_pos hcap, if_neg hemp]
          have ih' := ih (updLoad (updLoad s o (-1)) t 1) (ul.erase t)
            (by rw [hlen1]; exact ho)
            (by
              intro x hx
              rw [hlen1]
              exact hul x (List.mem_of_mem_erase hx))
            (fun hc => hno (List.mem_of_mem_erase hc))
          obtain ⟨i1, i2, i3, i4, i5, i6, i7, i8⟩ := ih'
          rw [hres]
          refine ⟨i1.trans hlen1, ?_, i3.trans hsum1, ?_, ?_, ?_, ?_, ?_⟩
          · intro x hx
            exact List.mem_of_mem_erase (i2 x hx)
          · intro j h1 h2
            rw [i4 j h1 (fun hc => h2 (List.mem_of_mem_erase hc)),
              hld_other j h1 (fun hc => h2 (hc ▸ htul))]
          · intro j h1
            exact le_trans (hmono1 j h1) (i5 j h1)
          · have := i6
            rw [hld_o] at this
            omega
          · intro j
            rw [i7 j, hcap1 j]
          · intro j
            rw [i8 j, hst1 j]
      · have hres : innerLoop o (k + 1) s ul =
            innerLoop o k (updLoad (updLoad s o (-1)) t 1) ul := by
          simp only [innerLoop, hmu, if_neg hcap]
        have ih' := ih (updLoad (updLoad s o (-1)) t 1) ul
          (by rw [hlen1]; exact ho)
          (by
            intro x hx
            rw [hlen1]
            exact hul x hx)
          hno
        obtain ⟨i1, i2, i3, i4, i5, i6, i7, i8⟩ := ih'
        rw [hres]
        refine ⟨i1.trans hlen1, i2, i3.trans hsum1, ?_, ?_, ?_, ?_, ?_⟩
        · intro j h1 h2
          rw [i4 j h1 h2, hld_other j h1 (fun hc => h2 (hc ▸ htul))]
        · intro j h1
          exact le_trans (hmono1 j h1) (i5 j h1)
        · have := i6
          rw [hld_o] at this
          omega
        · intro j
          rw [i7 j, hcap1 j]
        · intro j
          rw [i8 j, hst1 j]

theorem outerLoop_spec :
    ∀ (os : List Nat) (s : List Agent) (ul : List Nat),
      (∀ x, x ∈ os → x < s.length) → (∀ t, t ∈ ul → t < s.length) →
      (∀ x, x ∈ os → x ∉ ul) → os.Nodup →
      (outerLoop os s ul).1.length = s.length ∧
      sumLoad (outerLoop os s ul).1 = sumLoad s ∧
      (∀ j, (ld (outerLoop os s ul).1 j).capacity = (ld s j).capacity) ∧
      (∀ j, (ld (outerLoop os s ul).1 j).status = (ld s j).status) ∧
      (∀ j, j ∉ os →
        (ld s j).currentLoad ≤ (ld (outerLoop os s ul).1 j).currentLoad) ∧
      (∀ j, j ∈ os →
        min (ld s j).currentLoad (ld s j).capacity ≤
          (ld (outerLoop os s ul).1 j).currentLoad) := by
  intro os
  induction os with
  | nil =>
    intro s ul _ _ _ _
    exact ⟨rfl, rfl, fun j => rfl, fun j => rfl, fun j _ => le_refl _,
      fun j hj => absurd hj (List.not_mem_nil j)⟩
  | cons o os' ih =>
    intro s ul hos hul hdisj hnd
    have ho : o < s.length := hos o (List.mem_cons_self o os')
    have hno : o ∉ ul := hdisj o (List.mem_cons_self o os')
    obtain ⟨hond, hnd'⟩ := List.nodup_cons.mp hnd
    obtain ⟨I1, I2, I3, I4, I5, I6, I7, I8⟩ :=
      innerLoop_spec o (((ld s o).currentLoad - (ld s o).capacity).toNat) s ul
        ho hul hno
    cases herr : (innerLoop o (((ld s o).currentLoad - (ld s o).capacity).toNat) s ul).2.2 with
    | true =>
      have hres : outerLoop (o :: os') s ul =
          ((innerLoop o (((ld s o).currentLoad - (ld s o).capacity).toNat) s ul).1,
            true) := by
        simp only [outerLoop, herr, if_true]
      rw [hres]
      dsimp only
      refine ⟨I1, I3, I7, I8, ?_, ?_⟩
      · intro j hj
        exact I5 j (fun hc => hj (hc ▸ List.mem_cons_self o os'))
      · intro j hj
        rcases List.mem_cons.mp hj with hj | hj
        · subst hj
          have := I6
          omega
        · have hjo : j ≠ o := fun hc => hond (hc ▸ hj)
          rw [I4 j hjo (hdisj j (List.mem_cons_of_mem o hj))]
          omega
    | false =>
      have hres : outerLoop (o :: os') s ul =
          outerLoop os'
            (innerLoop o (((ld s o).currentLoad - (ld s o).capacity).toNat) s ul).1
            (innerLoop o (((ld s o).currentLoad - (ld s o).capacity).toNat) s ul).2.1 := by
        simp only [outerLoop, herr]
        rfl
      obtain ⟨O1, O2, O3, O4, O5, O6⟩ := ih
        (innerLoop o (((ld s o).currentLoad - (ld s o).capacity).toNat) s ul).1
        (innerLoop o (((ld s o).currentLoad - (ld s o).capacity).toNat) s ul).2.1
        (by
          intro x hx
          rw [I1]
          exact hos x (List.mem_cons_of_mem o hx))
        (by
          intro x hx
          rw [I1]
          exact hul x (I2 x hx))
        (fun x hx hc => hdisj x (List.mem_cons_of_mem o hx) (I2 x hc))
        hnd'
      rw [hres]
      refine ⟨O1.trans I1, O2.trans I3, ?_, ?_, ?_, ?_⟩
      · intro j
        rw [O3 j, I7 j]
      · intro j
        rw [O4 j, I8 j]
      · intro j hj
        have hjo : j ≠ o := fun hc => hj (hc ▸ List.mem_cons_self o os')
        have hjos : j ∉ os' := fun hc => hj (List.mem_cons_of_mem o hc)
        exact le_trans (I5 j hjo) (O5 j hjos)
      · intro j hj
        rcases List.mem_cons.mp hj with hj | hj
        · subst hj
          have h1 := O5 j hond
          have h2 := I6
          omega
        · have hjo : j ≠ o := fun hc => hond (hc ▸ hj)
          have h1 := O6 j hj
          rw [I4 j hjo (hdisj j (List.mem_cons_of_mem o hj))] at h1
          exact h1


/-! ## From the loop invariants to `balanceLoad` -/

theorem balanceLoad_eq (s : List Agent) :
    balanceLoad s =
      if (overIdx s).isEmpty then (s, BalanceOutcome.ok)
      else if (underIdx s).isEmpty then (s, BalanceOutcome.cannotBalance)
      else
        ((outerLoop (overIdx s) s (underIdx s)).1,
          if (outerLoop (overIdx s) s (underIdx s)).2 then BalanceOutcome.errored
          else BalanceOutcome.ok) := rfl

theorem mem_sortedIdx {s : List Agent} {i : Nat} :
    i ∈ sortedIdx s ↔ i < s.length := by
  unfold sortedIdx
  rw [(List.perm_insertionSort (balLe s) (List.range s.length)).mem_iff]
  exact List.mem_range

theorem nodup_sortedIdx (s : List Agent) : (sortedIdx s).Nodup :=
  (List.perm_insertionSort (balLe s) (List.range s.length)).nodup_iff.mpr
    (List.nodup_range s.length)

theorem mem_overIdx {s : List Agent} {i : Nat} :
    i ∈ overIdx s ↔ i < s.length ∧ (ld s i).capacity < (ld s i).currentLoad := by
  simp [overIdx, List.mem_filter, mem_sortedIdx]

theorem mem_underIdx {s : List Agent} {i : Nat} :
    i ∈ underIdx s ↔ i < s.length ∧ (ld s i).currentLoad < (ld s i).capacity := by
  simp [underIdx, List.mem_filter, mem_sortedIdx]

theorem nodup_overIdx (s : List Agent) : (overIdx s).Nodup :=
  (nodup_sortedIdx s).filter _

theorem overIdx_empty_iff {s : List Agent} :
    (overIdx s).isEmpty = true ↔
      ∀ j, j < s.length → (ld s j).currentLoad ≤ (ld s j).capacity := by
  rw [List.isEmpty_iff]
  constructor
  · intro h j hj
    by_contra hc
    have : j ∈ overIdx s := mem_overIdx.mpr ⟨hj, by omega⟩
    rw [h] at this
    exact List.not_mem_nil j this
  · intro h
    by_contra hc
    obtain ⟨i, hi⟩ := List.exists_mem_of_ne_nil _ hc
    have := mem_overIdx.mp hi
    have := h i this.1
    omega

theorem underIdx_empty_iff {s : List Agent} :
    (underIdx s).isEmpty = true ↔
      ∀ j, j < s.length → (ld s j).capacity ≤ (ld s j).currentLoad := by
  rw [List.isEmpty_iff]
  constructor
  · intro h j hj
    by_contra hc
    have : j ∈ underIdx s := mem_underIdx.mpr ⟨hj, by omega⟩
    rw [h] at this
    exact List.not_mem_nil j this
  · intro h
    by_contra hc
    obtain ⟨i, hi⟩ := List.exists_mem_of_ne_nil _ hc
    have := mem_underIdx.mp hi
    have := h i this.1
    omega

theorem balanceLoad_spec (s : List Agent) :
    (balanceLoad s).1.length = s.length ∧
    sumLoad (balanceLoad s).1 = sumLoad s ∧
    (∀ j, (ld (balanceLoad s).1 j).capacity = (ld s j).capacity) ∧
    (∀ j, (ld (balanceLoad s).1 j).status = (ld s j).status) ∧
    (∀ j, min (ld s j).currentLoad (ld s j).capacity ≤
      (ld (balanceLoad s).1 j).currentLoad) := by
  rw [balanceLoad_eq]
  by_cases hov : (overIdx s).isEmpty = true
  · rw [if_pos hov]
    exact ⟨rfl, rfl, fun j => rfl, fun j => rfl, fun j => min_le_left _ _⟩
  · rw [if_neg hov]
    by_cases hund : (underIdx s).isEmpty = true
    · rw [if_pos hund]
      exact ⟨rfl, rfl, fun j => rfl, fun j => rfl, fun j => min_le_left _ _⟩
    · rw [if_neg hund]
      dsimp only
      obtain ⟨O1, O2, O3, O4, O5, O6⟩ := outerLoop_spec (overIdx s) s (underIdx s)
        (fun x hx => (mem_overIdx.mp hx).1)
        (fun t ht => (mem_underIdx.mp ht).1)
        (fun x hx hc => by
          have h1 := (mem_overIdx.mp hx).2
          have h2 := (mem_underIdx.mp hc).2
          omega)
        (nodup_overIdx s)
      refine ⟨O1, O2, O3, O4, ?_⟩
      intro j
      by_cases hj : j ∈ overIdx s
      · exact O6 j hj
      · exact le_trans (min_le_left _ _) (O5 j hj)

/-! ## Shape lemmas for the registry operations -/

theorem ld_set_ne (s : List Agent) {i j : Nat} (a : Agent) (h : j ≠ i) :
    ld (s.set i a) j = ld s j := by
  induction s generalizing i j with
  | nil => simp [ld]
  | cons b t ih =>
    cases i with
    | zero =>
      cases j with
      | zero => exact absurd rfl h
      | succ j' => simp [ld, List.set]
    | succ i' =>
      cases j with
      | zero => simp [ld, List.set]
      | succ j' =>
        have := ih (i := i') (j := j') (fun hc => h (by simp [hc]))
        simpa [ld, List.set] using this

theorem ld_set_self (s : List Agent) {i : Nat} (a : Agent) (h : i < s.length) :
    ld (s.set i a) i = a := by
  induction s generalizing i with
  | nil => simp at h
  | cons b t ih =>
    cases i with
    | zero => simp [ld, List.set]
    | succ i' =>
      have h' : i' < t.length := by simpa using h
      have := ih (i := i') h'
      simpa [ld, List.set] using this

theorem ld_append_lt {s : List Agent} {a : Agent} {j : Nat} (h : j < s.length) :
    ld (s ++ [a]) j = ld s j := by
  induction s generalizing j with
  | nil => simp at h
  | cons b t ih =>
    cases j with
    | zero => simp [ld]
    | succ j' =>
      have h' : j' < t.length := by simpa using h
      have := ih (j := j') h'
      simpa [ld] using this

theorem ld_append_self {s : List Agent} {a : Agent} :
    ld (s ++ [a]) s.length = a := by
  induction s with
  | nil => simp [ld]
  | cons b t ih =>
    simp only [List.cons_append, List.length_cons]
    simpa [ld] using ih

theorem assignTask_state (s : List Agent) (aid? : Option String) (tid : String)
    (task? : Option WorkItem) (tag : AgentSpecialization) :
    (assignTask s aid? tid task? tag).1 = s ∨
      ∃ i, (assignTask s aid? tid task? tag).1 = updLoad s i 1 := by
  cases aid? with
  | some aid =>
    cases hf : s.findIdx? (fun a => a.id == aid) with
    | none => left; simp [assignTask, hf]
    | some i =>
      by_cases hcap : (ld s i).capacity ≤ (ld s i).currentLoad
      · left; simp [assignTask, hf, hcap]
      · right; exact ⟨i, by simp [assignTask, hf, hcap]⟩
  | none =>
    cases task? with
    | none => left; simp [assignTask]
    | some t =>
      cases hb : findBestAgentForTask s tag with
      | none => left; simp [assignTask, hb]
      | some i => right; exact ⟨i, by simp [assignTask, hb]⟩

theorem completeTask_state (s : List Agent) (aid : String) :
    (completeTask s aid).1 = s ∨
      ∃ i, 0 < (ld s i).currentLoad ∧
        (completeTask s aid).1 = updLoad s i (-1) := by
  cases hf : s.findIdx? (fun a => a.id == aid) with
  | none => left; simp [completeTask, hf]
  | some i =>
    by_cases h0 : 0 < (ld s i).currentLoad
    · right; exact ⟨i, h0, by simp [completeTask, hf, h0]⟩
    · left; simp [completeTask, hf, h0]

theorem updateAgentStatus_state (s : List Agent) (aid : String)
    (st : AgentStatusType) :
    (updateAgentStatus s aid st).1 = s ∨
      ∃ i, (updateAgentStatus s aid st).1 = s.set i { ld s i with status := st } := by
  cases hf : s.findIdx? (fun a => a.id == aid) with
  | none => left; simp [updateAgentStatus, hf]
  | some i => right; exact ⟨i, by simp [updateAgentStatus, hf]⟩

/-! ## Preservation of the data-model invariants -/

theorem capsPos_updLoad {s : List Agent} (i : Nat) (d : Int) (h : capsPos s) :
    capsPos (updLoad s i d) := by
  intro j hj
  rw [length_updLoad] at hj
  rw [ld_updLoad_capacity]
  exact h j hj

theorem loadsNonneg_updLoad_inc {s : List Agent} (i : Nat) (h : loadsNonneg s) :
    loadsNonneg (updLoad s i 1) := by
  intro j hj
  rw [length_updLoad] at hj
  by_cases hij : j = i
  · subst hij
    rw [ld_updLoad_self s 1 hj]
    have := h j hj
    simp
    omega
  · rw [ld_updLoad_ne s 1 hij]
    exact h j hj

theorem step_preserves (s : List Agent) (op : Op) (hcap : capsPos s)
    (hload : loadsNonneg s) (hop : opCapsPos op) :
    capsPos (step s op) ∧ loadsNonneg (step s op) := by
  cases op with
  | register id name spec cap =>
    constructor
    · intro j hj
      simp only [step, registerAgent, List.length_append, List.length_cons,
        List.length_nil] at hj
      by_cases hlt : j < s.length
      · rw [step, registerAgent]
        rw [ld_append_lt hlt]
        exact hcap j hlt
      · have hj' : j = s.length := by omega
        subst hj'
        rw [step, registerAgent]
        rw [ld_append_self]
        exact hop
    · intro j hj
      simp only [step, registerAgent, List.length_append, List.length_cons,
        List.length_nil] at hj
      by_cases hlt : j < s.length
      · rw [step, registerAgent]
        rw [ld_append_lt hlt]
        exact hload j hlt
      · have hj' : j = s.length := by omega
        subst hj'
        rw [step, registerAgent]
        rw [ld_append_self]
  | assign aid? tid task? tag =>
    rcases assignTask_state s aid? tid task? tag with hs | ⟨i, hs⟩
    · rw [step, hs]
      exact ⟨hcap, hload⟩
    · rw [step, hs]
      exact ⟨capsPos_updLoad i 1 hcap, loadsNonneg_updLoad_inc i hload⟩
  | complete aid tid =>
    rcases completeTask_state s aid with hs | ⟨i, h0, hs⟩
    · rw [step, hs]
      exact ⟨hcap, hload⟩
    · rw [step, hs]
      refine ⟨capsPos_updLoad i (-1) hcap, ?_⟩
      intro j hj
      rw [length_updLoad] at hj
      by_cases hij : j = i
      · subst hij
        rw [ld_updLoad_self s (-1) hj]
        simp
        omega
      · rw [ld_updLoad_ne s (-1) hij]
        exact hload j hj
  | balance =>
    obtain ⟨B1, _, B3, _, B5⟩ := balanceLoad_spec s
    constructor
    · intro j hj
      rw [step] at hj ⊢
      rw [B1] at hj
      rw [B3 j]
      exact hcap j hj
    · intro j hj
      rw [step] at hj ⊢
      rw [B1] at hj
      have h5 := B5 j
      have hl := hload j hj
      have hc := hcap j hj
      omega
  | setStatus aid st =>
    rcases updateAgentStatus_state s aid st with hs | ⟨i, hs⟩
    · rw [step, hs]
      exact ⟨hcap, hload⟩
    · constructor
      · intro j hj
        rw [step, hs] at hj ⊢
        rw [List.length_set] at hj
        by_cases hij : j = i
        · subst hij
          by_cases hlt : j < s.length
          · rw [ld_set_self s _ hlt]
            exact hcap j hlt
          · omega
        · rw [ld_set_ne s _ hij]
          exact hcap j hj
      · intro j hj
        rw [step, hs] at hj ⊢
        rw [List.length_set] at hj
        by_cases hij : j = i
        · subst hij
          by_cases hlt : j < s.length
          · rw [ld_set_self s _ hlt]
            exact hload j hlt
          · omega
        · rw [ld_set_ne s _ hij]
          exact hload j hj

theorem run_preserves (ops : List Op) :
    ∀ s : List Agent, capsPos s → loadsNonneg s →
      (∀ op, op ∈ ops → opCapsPos op) →
      capsPos (run s ops) ∧ loadsNonneg (run s ops) := by
  induction ops with
  | nil => intro s h1 h2 _; exact ⟨h1, h2⟩
  | cons op rest ih =>
    intro s h1 h2 hops
    have hstep := step_preserves s op h1 h2 (hops op (List.mem_cons_self op rest))
    have := ih (step s op) hstep.1 hstep.2
      (fun o ho => hops o (List.mem_cons_of_mem op ho))
    simpa [run, List.foldl_cons] using this

/-! ## Claim theorems: the load balancer -/

/-- C1: the claim states that once the eligible underloaded set becomes
empty, redistribution stops for the current and all subsequent overloaded
agents and the pass completes normally without raising an error, for every
starting snapshot.  The code's `break` only leaves the inner per-agent
loop, so on `crashSnapshot` (receivers exhausted while a second overloaded
agent is still pending) the next iteration calls `reduce` on the
empty receiver array and the pass aborts with an uncaught `TypeError`,
leaving the first transfer applied in memory but never persisted. -/
theorem C1_balance_crashes_when_receivers_exhausted :
    balanceLoad crashSnapshot =
      ([mkAgent "o1" .RUNNING .general 1 1,
        mkAgent "o2" .RUNNING .general 1 2,
        mkAgent "u" .RUNNING .general 1 1], BalanceOutcome.errored) ∧
    (balanceLoad crashSnapshot).2 ≠ BalanceOutcome.ok := by
  constructor
  · decide
  · decide

/-- C2: starting from any registry satisfying the data model (non-negative
loads, positive capacities) every sequence of `registerAgent` /
`assignTask` / `completeTask` / `balanceLoad` / `updateAgentStatus`
operations keeps every `currentLoad` non-negative; `completeTask` on an
agent with `currentLoad = 0` leaves it at 0 (the decrement is clamped);
and `balanceLoad` never drives an overloaded agent's load below its
capacity. -/
theorem C2_currentLoad_invariants :
    (∀ (ops : List Op) (s : List Agent),
      capsPos s → loadsNonneg s → (∀ op, op ∈ ops → opCapsPos op) →
      loadsNonneg (run s ops)) ∧
    (∀ (s : List Agent) (aid : String) (i : Nat),
      s.findIdx? (fun a => a.id == aid) = some i →
      (ld s i).currentLoad = 0 →
      (ld (completeTask s aid).1 i).currentLoad = 0) ∧
    (∀ (s : List Agent) (j : Nat),
      (ld s j).capacity < (ld s j).currentLoad →
      (ld s j).capacity ≤ (ld (balanceLoad s).1 j).currentLoad) := by
  refine ⟨?_, ?_, ?_⟩
  · intro ops s h1 h2 h3
    exact (run_preserves ops s h1 h2 h3).2
  · intro s aid i hf h0
    have : ¬ 0 < (ld s i).currentLoad := by omega
    simp [completeTask, hf, this, h0]
  · intro s j hover
    have h5 := (balanceLoad_spec s).2.2.2.2 j
    omega

/-- Witness for C2 at concrete inputs: a register/assign/balance/complete
sequence from the empty registry keeps loads non-negative; completing a
task on an agent with load 0 leaves it at 0; and the overloaded agent of
`overOnlySnapshot` is still at or above its capacity after the pass. -/
theorem C2_currentLoad_invariants_witness :
    loadsNonneg (run []
      [Op.register "a1" "a1" .general 2, Op.setStatus "a1" .RUNNING,
       Op.assign (some "a1") "t1" none .general, Op.balance,
       Op.complete "a1" "t1", Op.complete "a1" "t1"]) ∧
    (ld (completeTask [mkAgent "a1" .RUNNING .general 2 0] "a1").1 0).currentLoad = 0 ∧
    (ld overOnlySnapshot 0).capacity ≤
      (ld (balanceLoad overOnlySnapshot).1 0).currentLoad := by
  refine ⟨?_, ?_, ?_⟩
  · exact C2_currentLoad_invariants.1 _ []
      (fun j hj => absurd hj (by simp))
      (fun j hj => absurd hj (by simp))
      (by
        intro op hop
        simp only [List.mem_cons] at hop
        rcases hop with h | h | h | h | h | h | h <;>
          first
            | (subst h; simp [opCapsPos])
            | simp at h)
  · exact C2_currentLoad_invariants.2.1 _ "a1" 0 (by decide) (by decide)
  · exact C2_currentLoad_invariants.2.2 overOnlySnapshot 0 (by decide)

/-- C5 counterexample: the claim asserts that whenever no agent has
`currentLoad < capacity` the pass reports "cannot balance", but on a
snapshot whose only agent is exactly at capacity the pass takes the
"no overloaded agents" early return and reports nothing. -/
theorem C5_counterexample_at_capacity :
    (∀ a ∈ atCapSnapshot, ¬ a.currentLoad < a.capacity) ∧
    (balanceLoad atCapSnapshot).2 = BalanceOutcome.ok ∧
    (balanceLoad atCapSnapshot).2 ≠ BalanceOutcome.cannotBalance := by
  refine ⟨?_, ?_, ?_⟩ <;> decide

/-- C5 (amended): `balanceLoad` mutates no agent in either terminal case:
with no overloaded agent it returns silently leaving the registry
untouched, and with at least one overloaded agent but no underloaded agent
it leaves the registry untouched and reports "cannot balance". -/
theorem C5_balance_terminal_cases_frame :
    ∀ s : List Agent,
      ((∀ j, j < s.length → (ld s j).currentLoad ≤ (ld s j).capacity) →
        balanceLoad s = (s, BalanceOutcome.ok)) ∧
      ((∃ j, j < s.length ∧ (ld s j).capacity < (ld s j).currentLoad) →
        (∀ j, j < s.length → (ld s j).capacity ≤ (ld s j).currentLoad) →
        balanceLoad s = (s, BalanceOutcome.cannotBalance)) := by
  intro s
  constructor
  · intro h
    rw [balanceLoad_eq, if_pos (overIdx_empty_iff.mpr h)]
  · intro hover hund
    have hne : ¬ (overIdx s).isEmpty = true := by
      obtain ⟨j, hj1, hj2⟩ := hover
      intro hc
      have := overIdx_empty_iff.mp hc j hj1
      omega
    rw [balanceLoad_eq, if_neg hne, if_pos (underIdx_empty_iff.mpr hund)]

/-- Witness for C5 (amended) at concrete inputs: an at-capacity snapshot
takes the silent no-op branch, and an all-overloaded snapshot takes the
"cannot balance" branch, both leaving the registry unchanged. -/
theorem C5_balance_terminal_cases_frame_witness :
    balanceLoad atCapSnapshot = (atCapSnapshot, BalanceOutcome.ok) ∧
    balanceLoad overOnlySnapshot = (overOnlySnapshot, BalanceOutcome.cannotBalance) := by
  constructor
  · exact (C5_balance_terminal_cases_frame atCapSnapshot).1 (by decide)
  · exact (C5_balance_terminal_cases_frame overOnlySnapshot).2
      ⟨0, by decide⟩ (by decide)

/-- C9: `balanceLoad` conserves the total load: the final registry of a
pass has the same load sum as the snapshot (also when the pass aborts with
the `TypeError` of C1), every intermediate state of the per-agent transfer
loop has the same load sum as its entry state, and one transfer pairs one
decrement with one increment, leaving the sum unchanged. -/
theorem C9_balance_conserves_total_load :
    (∀ s : List Agent, sumLoad (balanceLoad s).1 = sumLoad s) ∧
    (∀ (o k : Nat) (s : List Agent) (ul : List Nat),
      o < s.length → (∀ t, t ∈ ul → t < s.length) → o ∉ ul →
      sumLoad (innerLoop o k s ul).1 = sumLoad s) ∧
    (∀ (s : List Agent) (o t : Nat), o < s.length → t < s.length →
      sumLoad (updLoad (updLoad s o (-1)) t 1) = sumLoad s) := by
  refine ⟨?_, ?_, ?_⟩
  · intro s
    exact (balanceLoad_spec s).2.1
  · intro o k s ul h1 h2 h3
    exact (innerLoop_spec o k s ul h1 h2 h3).2.2.1
  · intro s o t ho ht
    rw [sumLoad_updLoad _ 1 (by rw [length_updLoad]; exact ht),
      sumLoad_updLoad _ (-1) ho]
    ring

/-- Witness for C9 at concrete inputs: one inner-loop pass and one raw
transfer on `crashSnapshot` both conserve the total load. -/
theorem C9_balance_conserves_total_load_witness :
    sumLoad (innerLoop 0 1 crashSnapshot [2]).1 = sumLoad crashSnapshot ∧
    sumLoad (updLoad (updLoad crashSnapshot 0 (-1)) 2 1) = sumLoad crashSnapshot := by
  constructor
  · exact C9_balance_conserves_total_load.2.1 0 1 crashSnapshot [2]
      (by decide)
      (by intro t ht; simp at ht; subst ht; decide)
      (by decide)
  · exact C9_balance_conserves_total_load.2.2 crashSnapshot 0 2
      (by decide) (by decide)

/-! ## Lemmas about `findBestAgentForTask` -/

theorem head?_mem {α : Type} {l : List α} {a : α} (h : l.head? = some a) :
    a ∈ l := by
  cases l with
  | nil => simp at h
  | cons x xs =>
    simp only [List.head?_cons, Option.some.injEq] at h
    subst h
    exact List.mem_cons_self _ _

theorem findBest_eq (s : List Agent) (spec : AgentSpecialization) :
    findBestAgentForTask s spec =
      if (availableIdx s spec).isEmpty then
        if (anyAvailableIdx s).isEmpty then none
        else (List.insertionSort (balLe s) (anyAvailableIdx s)).head?
      else (List.insertionSort (bestLe s spec) (availableIdx s spec)).head? := rfl

theorem mem_availableIdx {s : List Agent} {spec : AgentSpecialization} {i : Nat} :
    i ∈ availableIdx s spec ↔ i < s.length ∧ eligible s spec i := by
  simp [availableIdx, List.mem_filter, List.mem_range]

theorem mem_anyAvailableIdx {s : List Agent} {i : Nat} :
    i ∈ anyAvailableIdx s ↔ i < s.length ∧ anyEligible s i := by
  simp [anyAvailableIdx, List.mem_filter, List.mem_range]

theorem availableIdx_empty_iff {s : List Agent} {spec : AgentSpecialization} :
    (availableIdx s spec).isEmpty = true ↔
      ∀ j, j < s.length → ¬ eligible s spec j := by
  rw [List.isEmpty_iff]
  constructor
  · intro h j hj hel
    have : j ∈ availableIdx s spec := mem_availableIdx.mpr ⟨hj, hel⟩
    rw [h] at this
    exact List.not_mem_nil j this
  · intro h
    by_contra hc
    obtain ⟨i, hi⟩ := List.exists_mem_of_ne_nil _ hc
    have := mem_availableIdx.mp hi
    exact h i this.1 this.2

theorem anyAvailableIdx_empty_iff {s : List Agent} :
    (anyAvailableIdx s).isEmpty = true ↔
      ∀ j, j < s.length → ¬ anyEligible s j := by
  rw [List.isEmpty_iff]
  constructor
  · intro h j hj hel
    have : j ∈ anyAvailableIdx s := mem_anyAvailableIdx.mpr ⟨hj, hel⟩
    rw [h] at this
    exact List.not_mem_nil j this
  · intro h
    by_contra hc
    obtain ⟨i, hi⟩ := List.exists_mem_of_ne_nil _ hc
    have := mem_anyAvailableIdx.mp hi
    exact h i this.1 this.2

theorem findBest_some_running_spare {s : List Agent}
    {spec : AgentSpecialization} {i : Nat}
    (h : findBestAgentForTask s spec = some i) :
    i < s.length ∧ (ld s i).currentLoad < (ld s i).capacity ∧
      (ld s i).status = .RUNNING := by
  rw [findBest_eq] at h
  by_cases hav : (availableIdx s spec).isEmpty = true
  · rw [if_pos hav] at h
    by_cases hany : (anyAvailableIdx s).isEmpty = true
    · rw [if_pos hany] at h
      exact absurd h (by simp)
    · rw [if_neg hany] at h
      have hi := head?_mem h
      rw [List.mem_insertionSort] at hi
      have hm := mem_anyAvailableIdx.mp hi
      exact ⟨hm.1, hm.2.1, hm.2.2⟩
  · rw [if_neg hav] at h
    have hi := head?_mem h
    rw [List.mem_insertionSort] at hi
    have hm := mem_availableIdx.mp hi
    exact ⟨hm.1, hm.2.2.1, hm.2.2.2⟩

theorem findBest_none_iff {s : List Agent} {spec : AgentSpecialization} :
    findBestAgentForTask s spec = none ↔
      ∀ j, j < s.length → ¬ anyEligible s j := by
  rw [findBest_eq]
  constructor
  · intro h
    by_cases hav : (availableIdx s spec).isEmpty = true
    · rw [if_pos hav] at h
      by_cases hany : (anyAvailableIdx s).isEmpty = true
      · exact anyAvailableIdx_empty_iff.mp hany
      · rw [if_neg hany] at h
        rw [List.head?_eq_none_iff] at h
        have hlen := List.length_insertionSort (balLe s) (anyAvailableIdx s)
        rw [h] at hlen
        simp only [List.length_nil] at hlen
        rw [List.isEmpty_iff] at hany
        exact absurd (List.length_eq_zero.mp hlen.symm) hany
    · rw [if_neg hav] at h
      rw [List.head?_eq_none_iff] at h
      have hlen := List.length_insertionSort (bestLe s spec) (availableIdx s spec)
      rw [h] at hlen
      simp only [List.length_nil] at hlen
      rw [List.isEmpty_iff] at hav
      exact absurd (List.length_eq_zero.mp hlen.symm) hav
  · intro hall
    have hany : (anyAvailableIdx s).isEmpty = true :=
      anyAvailableIdx_empty_iff.mpr hall
    have hav : (availableIdx s spec).isEmpty = true :=
      availableIdx_empty_iff.mpr
        (fun j hj hel => hall j hj ⟨hel.2.1, hel.2.2⟩)
    rw [if_pos hav, if_pos hany]

/-! ## Claim theorems: task assignment -/

/-- C3: auto-assignment (no explicit agent id, task found) only ever
returns an agent that was `RUNNING` with `currentLoad < capacity` before
the increment, and when no `RUNNING` agent with spare capacity exists it
fails with the NoAvailableAgent error. -/
theorem C3_auto_assignment_running_spare_or_fails :
    (∀ (s : List Agent) (tid : String) (t : WorkItem)
      (tag : AgentSpecialization) (s' : List Agent) (a : Agent),
      assignTask s none tid (some t) tag = (s', Except.ok a) →
      ∃ i, i < s.length ∧ (ld s i).status = .RUNNING ∧
        (ld s i).currentLoad < (ld s i).capacity ∧
        s' = updLoad s i 1 ∧ a = ld (updLoad s i 1) i) ∧
    (∀ (s : List Agent) (tid : String) (t : WorkItem)
      (tag : AgentSpecialization),
      (∀ j, j < s.length →
        ¬ ((ld s j).currentLoad < (ld s j).capacity ∧
            (ld s j).status = .RUNNING)) →
      assignTask s none tid (some t) tag =
        (s, Except.error (AssignError.noAvailableAgent tag))) := by
  constructor
  · intro s tid t tag s' a h
    cases hb : findBestAgentForTask s tag with
    | none => simp [assignTask, hb] at h
    | some i =>
      have hi := findBest_some_running_spare hb
      simp only [assignTask, hb, Prod.mk.injEq, Except.ok.injEq] at h
      exact ⟨i, hi.1, hi.2.2, hi.2.1, h.1.symm, h.2.symm⟩
  · intro s tid t tag hall
    have hb : findBestAgentForTask s tag = none :=
      findBest_none_iff.mpr (fun j hj hel => hall j hj ⟨hel.1, hel.2⟩)
    simp [assignTask, hb]

/-- Witness for C3 at concrete inputs: on `mixedSnapshot` the auto path
returns the backend agent with its pre-increment load below capacity, and
on the empty registry it fails with NoAvailableAgent. -/
theorem C3_auto_assignment_running_spare_or_fails_witness :
    (∃ i, i < mixedSnapshot.length ∧
      (ld mixedSnapshot i).status = .RUNNING ∧
      (ld mixedSnapshot i).currentLoad < (ld mixedSnapshot i).capacity ∧
      [mkAgent "g" .RUNNING .general 10 1, mkAgent "b" .RUNNING .backend 10 6] =
        updLoad mixedSnapshot i 1 ∧
      mkAgent "b" .RUNNING .backend 10 6 = ld (updLoad mixedSnapshot i 1) i) ∧
    assignTask [] none "t1" (some sampleTask) .backend =
      ([], Except.error (AssignError.noAvailableAgent .backend)) := by
  constructor
  · exact C3_auto_assignment_running_spare_or_fails.1 mixedSnapshot "t1"
      sampleTask .backend _ _ rfl
  · exact C3_auto_assignment_running_spare_or_fails.2 [] "t1" sampleTask .backend
      (fun j hj => absurd hj (by simp))

/-- C4: explicit assignment to the agent found under a given id fails with
CapacityExceeded when that agent is at or over capacity, and with NotFound
when no agent carries the id; in both cases the whole registry is returned
unchanged. -/
theorem C4_explicit_assignment_error_cases :
    (∀ (s : List Agent) (aid tid : String) (task? : Option WorkItem)
      (tag : AgentSpecialization) (i : Nat),
      s.findIdx? (fun a => a.id == aid) = some i →
      (ld s i).capacity ≤ (ld s i).currentLoad →
      assignTask s (some aid) tid task? tag =
        (s, Except.error (AssignError.capacityExceeded aid))) ∧
    (∀ (s : List Agent) (aid tid : String) (task? : Option WorkItem)
      (tag : AgentSpecialization),
      (∀ a, a ∈ s → a.id ≠ aid) →
      assignTask s (some aid) tid task? tag =
        (s, Except.error (AssignError.notFound aid))) := by
  constructor
  · intro s aid tid task? tag i hf hcap
    simp [assignTask, hf, hcap]
  · intro s aid tid task? tag hall
    have hf : s.findIdx? (fun a => a.id == aid) = none := by
      rw [List.findIdx?_eq_none_iff]
      intro a ha
      simp [hall a ha]
    simp [assignTask, hf]

/-- Witness for C4 at concrete inputs: the full agent of `overOnlySnapshot`
rejects an explicit assignment with CapacityExceeded, and an unknown id on
the empty registry yields NotFound, both leaving the registry unchanged. -/
theorem C4_explicit_assignment_error_cases_witness :
    assignTask overOnlySnapshot (some "a1") "t1" none .general =
      (overOnlySnapshot, Except.error (AssignError.capacityExceeded "a1")) ∧
    assignTask [] (some "zz") "t1" none .general =
      ([], Except.error (AssignError.notFound "zz")) := by
  constructor
  · exact C4_explicit_assignment_error_cases.1 overOnlySnapshot "a1" "t1" none
      .general 0 rfl (by decide)
  · exact C4_explicit_assignment_error_cases.2 [] "zz" "t1" none .general
      (fun a ha => absurd ha (List.not_mem_nil a))

/-- C10: `assignTask` is atomic on failure: whenever it returns a thrown
error (agent id not found, explicit agent at capacity, task not found, or
no available agent), the registry it leaves behind is exactly the input
registry. -/
theorem C10_assignTask_atomic_on_failure :
    ∀ (s : List Agent) (aid? : Option String) (tid : String)
      (task? : Option WorkItem) (tag : AgentSpecialization) (e : AssignError),
      (assignTask s aid? tid task? tag).2 = Except.error e →
      (assignTask s aid? tid task? tag).1 = s := by
  intro s aid? tid task? tag e h
  cases aid? with
  | some aid =>
    cases hf : s.findIdx? (fun a => a.id == aid) with
    | none => simp [assignTask, hf]
    | some i =>
      by_cases hcap : (ld s i).capacity ≤ (ld s i).currentLoad
      · simp [assignTask, hf, hcap]
      · simp [assignTask, hf, hcap] at h
  | none =>
    cases task? with
    | none => simp [assignTask]
    | some t =>
      cases hb : findBestAgentForTask s tag with
      | none => simp [assignTask, hb]
      | some i => simp [assignTask, hb] at h

/-- Witness for C10 at a concrete input: a failing explicit assignment on
`overOnlySnapshot` leaves the registry untouched. -/
theorem C10_assignTask_atomic_on_failure_witness :
    (assignTask overOnlySnapshot (some "a1") "t1" none .general).1 =
      overOnlySnapshot :=
  C10_assignTask_atomic_on_failure overOnlySnapshot (some "a1") "t1" none
    .general (AssignError.capacityExceeded "a1") rfl

/-- C6: whenever some eligible agent exists (specialization equal to the
derived tag or `general`, spare capacity, `RUNNING`), auto-selection picks
an eligible agent; it picks an exact-specialization agent whenever one is
eligible (even if a `general` agent has a strictly lower load ratio), and
within the chosen match class it picks an agent whose load ratio is
minimal. -/
theorem C6_exact_match_first_then_lowest_ratio :
    ∀ (s : List Agent) (spec : AgentSpecialization),
      (∃ j, j < s.length ∧ eligible s spec j) →
      ∃ i, findBestAgentForTask s spec = some i ∧ i < s.length ∧
        eligible s spec i ∧
        ((∃ j, j < s.length ∧ eligible s spec j ∧
            (ld s j).specialization = spec) →
          (ld s i).specialization = spec) ∧
        (∀ j, j < s.length → eligible s spec j →
          ((ld s j).specialization = spec ↔ (ld s i).specialization = spec) →
          ratioLd s i ≤ ratioLd s j) := by
  intro s spec hex
  obtain ⟨j0, hj0, hel0⟩ := hex
  have hav : ¬ (availableIdx s spec).isEmpty = true := by
    rw [availableIdx_empty_iff]
    intro hall
    exact hall j0 hj0 hel0
  cases hL : List.insertionSort (bestLe s spec) (availableIdx s spec) with
  | nil =>
    exfalso
    have hlen := List.length_insertionSort (bestLe s spec) (availableIdx s spec)
    rw [hL] at hlen
    simp only [List.length_nil] at hlen
    rw [List.isEmpty_iff] at hav
    exact hav (List.length_eq_zero.mp hlen.symm)
  | cons i rest =>
    have hires : findBestAgentForTask s spec = some i := by
      rw [findBest_eq, if_neg hav, hL]
      rfl
    have himem : i ∈ availableIdx s spec := by
      rw [← List.mem_insertionSort (r := bestLe s spec), hL]
      exact List.mem_cons_self i rest
    have hi := mem_availableIdx.mp himem
    have hsort := List.sorted_insertionSort (bestLe s spec) (availableIdx s spec)
    rw [hL] at hsort
    have hrel : ∀ b ∈ rest, bestLe s spec i b :=
      List.rel_of_sorted_cons hsort
    have hble : ∀ j, j < s.length → eligible s spec j → bestLe s spec i j := by
      intro j hj hel
      have hjmem : j ∈ availableIdx s spec := mem_availableIdx.mpr ⟨hj, hel⟩
      rw [← List.mem_insertionSort (r := bestLe s spec), hL] at hjmem
      rcases List.mem_cons.mp hjmem with hji | hjr
      · subst hji
        exact Or.inr ⟨Iff.rfl, le_refl _⟩
      · exact hrel j hjr
    refine ⟨i, hires, hi.1, hi.2, ?_, ?_⟩
    · rintro ⟨j, hj, hel, hexact⟩
      by_contra hni
      rcases hble j hj hel with ⟨hie, _⟩ | ⟨hiff, _⟩
      · exact hni hie
      · exact hni (hiff.mpr hexact)
    · intro j hj hel hiff
      rcases hble j hj hel with ⟨hie, hjne⟩ | ⟨_, hr⟩
      · exact absurd (hiff.mpr hie) hjne
      · exact hr

/-- Witness for C6 at a concrete input: on `mixedSnapshot` with tag
`backend`, both agents are eligible, the `general` agent has the strictly
lower load ratio (0.1 < 0.5), and auto-selection still picks the exact
`backend` agent. -/
theorem C6_exact_match_first_then_lowest_ratio_witness :
    (∃ j, j < mixedSnapshot.length ∧ eligible mixedSnapshot .backend j) ∧
    ratioLd mixedSnapshot 0 < ratioLd mixedSnapshot 1 ∧
    (ld mixedSnapshot 0).specialization = .general ∧
    (∃ i, findBestAgentForTask mixedSnapshot .backend = some i ∧
      i < mixedSnapshot.length ∧ eligible mixedSnapshot .backend i ∧
      ((∃ j, j < mixedSnapshot.length ∧ eligible mixedSnapshot .backend j ∧
          (ld mixedSnapshot j).specialization = .backend) →
        (ld mixedSnapshot i).specialization = .backend) ∧
      (∀ j, j < mixedSnapshot.length → eligible mixedSnapshot .backend j →
        ((ld mixedSnapshot j).specialization = .backend ↔
          (ld mixedSnapshot i).specialization = .backend) →
        ratioLd mixedSnapshot i ≤ ratioLd mixedSnapshot j)) := by
  refine ⟨⟨1, by decide, by decide⟩, by decide, by decide, ?_⟩
  exact C6_exact_match_first_then_lowest_ratio mixedSnapshot .backend
    ⟨1, by decide, by decide⟩

/-! ## Claim theorems: classifier and needed-check -/

/-- C7 counterexample: the claim (following the spec) puts the combined
database score for description "api" and files ["schema.sql"] at 2 points;
on the code it is 3, because besides the `*.sql` extension match (2 points)
the plain pattern `'sql'` also occurs as a substring of the filename
(1 more point). -/
theorem C7_counterexample_database_margin :
    specScore "api" ["schema.sql"] AgentSpecialization.database ≠ 2 := by
  decide

/-- C7 (amended): with the default pattern table,
`classify("api", ["schema.sql"])` returns "database": the file side scores
3 for database (2 for the `*.sql` extension match plus 1 for the `'sql'`
substring match in the filename) against 1 for backend (keyword "api"). -/
theorem C7_schema_sql_classifies_database :
    determineSpecialization "api" ["schema.sql"] = .database ∧
    specScore "api" ["schema.sql"] AgentSpecialization.database = 3 ∧
    specScore "api" ["schema.sql"] AgentSpecialization.backend = 1 := by
  refine ⟨?_, ?_, ?_⟩ <;> decide

theorem popVariance_of_length_le_one {l : List ℚ} (h : l.length ≤ 1) :
    popVariance l = 0 := by
  cases l with
  | nil => simp [popVariance]
  | cons x t =>
    cases t with
    | nil => simp [popVariance]
    | cons y t' => simp at h

/-- C8: `isLoadBalancingNeeded` returns true on the ratio spread 0.8
example and false on the spread 0.1 example, and in general it returns
true exactly when some agent is over capacity or the population variance
of the RUNNING agents' load ratios exceeds 1/25 (i.e. their population
standard deviation exceeds 0.2). -/
theorem C8_needsBalancing_characterization :
    isLoadBalancingNeeded highSpreadSnapshot = true ∧
    isLoadBalancingNeeded lowSpreadSnapshot = false ∧
    (∀ agents : List Agent,
      isLoadBalancingNeeded agents = true ↔ needsBalancingSpec agents) := by
  refine ⟨?_, ?_, ?_⟩
  · norm_num [isLoadBalancingNeeded, highSpreadSnapshot, mkAgent, ratio_eq_div]
  · norm_num [isLoadBalancingNeeded, lowSpreadSnapshot, mkAgent, ratio_eq_div]
  · intro agents
    unfold isLoadBalancingNeeded needsBalancingSpec
    by_cases hany : agents.any (fun a => decide (a.capacity < a.currentLoad)) = true
    · rw [if_pos hany]
      simp only [List.any_eq_true, decide_eq_true_iff] at hany
      exact ⟨fun _ => Or.inl hany, fun _ => rfl⟩
    · rw [if_neg hany]
      have hnone : ¬ ∃ a ∈ agents, a.capacity < a.currentLoad := by
        simpa [List.any_eq_true, decide_eq_true_iff] using hany
      dsimp only
      by_cases hlen :
          ((agents.filter (fun a => decide (a.status = .RUNNING))).map ratio).length ≤ 1
      · rw [if_pos hlen]
        have hvar := popVariance_of_length_le_one hlen
        constructor
        · intro hfalse
          exact absurd hfalse (by simp)
        · rintro (h | h)
          · exact absurd h hnone
          · rw [hvar] at h
            norm_num at h
      · rw [if_neg hlen]
        rw [decide_eq_true_iff]
        constructor
        · intro h
          exact Or.inr h
        · rintro (h | h)
          · exact absurd h hnone
          · exact h
